import Mathlib

/-!
Shallow embedding of the selfish-mining fork-choice / chain-reorganization
simulator from scripts/simulate-51-attack.py (class SelfishMiningAttack and
its collaborators MiningSimulator, SimulationConfig, Block).

Modelling conventions:
- Python floats used for hashrates and random draws become rationals.
- SHA-256 block ids are modelled symbolically: the hash of a block is the
  free constructor HashVal.mk applied to exactly the data the script feeds
  into the preimage string (height, previous hash, clock reading, nonce),
  so distinct preimages have distinct ids (collision-freeness).
- Each loop iteration consumes a fixed tuple of environment inputs
  (RoundInput): the actor-selection draw random.random(), the honest-miner
  choice, the nonce draw, and the two wall-clock readings taken inside
  mine_block.  A run is then a pure function of the configuration and the
  list of per-round inputs.
- Python lists indexed from the front with append at the tail become Lean
  lists with append at the tail; chain[-1] becomes List.getLastD.
-/

namespace AttackSim

/-- Symbolic block identifiers: the genesis literal "genesis_hash", the
all-zero parent sentinel "0"*64, and the SHA-256 of the preimage string
built from height, previous hash, a clock reading and the nonce. -/
inductive HashVal where
  | genesisHash : HashVal
  | zeroPad : HashVal
  | mk (height : Nat) (prev : HashVal) (tHash : Nat) (nonce : Nat) : HashVal
deriving DecidableEq

/-- Block record, mirroring the @dataclass Block of the script. -/
structure Block where
  height : Nat
  hash : HashVal
  prev_hash : HashVal
  timestamp : Nat
  difficulty : Nat
  nonce : Nat
  transactions : List String
  miner : String
deriving DecidableEq

/-- Simulation configuration, mirroring the @dataclass SimulationConfig. -/
structure SimulationConfig where
  attacker_hashrate : ℚ
  honest_hashrate : ℚ
  total_blocks : Int
  attack_type : String
  network_delay : ℚ
  verbose : Bool
deriving DecidableEq

/-- Construction of the configuration exactly as main() builds it from the
parsed arguments: no field is validated, honest_hashrate is derived as
1 - attacker_hashrate, network_delay is fixed at 0.5. -/
def mkConfig (attacker_hashrate : ℚ) (blocks : Int) (attack : String)
    (verbose : Bool) : SimulationConfig :=
  { attacker_hashrate := attacker_hashrate
    honest_hashrate := 1 - attacker_hashrate
    total_blocks := blocks
    attack_type := attack
    network_delay := 1 / 2
    verbose := verbose }

/-- Environment inputs consumed by one loop iteration: r is the
random.random() draw selecting the actor, choice selects the honest miner,
nonce is the randint draw inside mine_block, tHash and tStamp are the two
int(time.time()) readings taken inside mine_block. -/
structure RoundInput where
  r : ℚ
  choice : Nat
  nonce : Nat
  tHash : Nat
  tStamp : Nat
deriving DecidableEq

/-- Mutable attributes of the SelfishMiningAttack object. -/
structure SimState where
  public_chain : List Block
  attacker_chain : List Block
  attacker_blocks_mined : Nat
  honest_blocks_mined : Nat
  attacker_blocks_in_main_chain : Nat
  honest_blocks_in_main_chain : Nat
  reorgs : Nat
deriving DecidableEq

/-- Genesis block built by initialize_genesis. -/
def genesisBlock : Block :=
  { height := 0
    hash := HashVal.genesisHash
    prev_hash := HashVal.zeroPad
    timestamp := 1763452800
    difficulty := 16
    nonce := 0xDEADBEEF
    transactions := []
    miner := "GENESIS" }

/-- State right after initialize_genesis: both chains hold the genesis
block and all counters are zero (constructor defaults of the class). -/
def initState : SimState :=
  { public_chain := [genesisBlock]
    attacker_chain := [genesisBlock]
    attacker_blocks_mined := 0
    honest_blocks_mined := 0
    attacker_blocks_in_main_chain := 0
    honest_blocks_in_main_chain := 0
    reorgs := 0 }

/-- The chain tip chain[-1]; the default is never consulted on the
nonempty chains arising in a run. -/
def tipD (l : List Block) : Block :=
  l.getLastD genesisBlock

/-- MiningSimulator.mine_block: builds a block whose id hashes the
(height, prev_hash, clock, nonce) preimage, stamped with the second clock
reading and the given miner identity. -/
def mineBlock (minerId : String) (height : Nat) (prevHash : HashVal)
    (difficulty : Nat) (nonce tHash tStamp : Nat) : Block :=
  { height := height
    hash := HashVal.mk height prevHash tHash nonce
    prev_hash := prevHash
    timestamp := tStamp
    difficulty := difficulty
    nonce := nonce
    transactions := []
    miner := minerId }

/-- The fixed pool of three honest miner identities built in __init__. -/
def honestMinerIds : List String :=
  ["HONEST_0", "HONEST_1", "HONEST_2"]

/-- Number of attacker-mined blocks in a chain:
len([b for b in chain if b.miner == "ATTACKER"]). -/
def countAttackerBlocks (l : List Block) : Nat :=
  (l.filter (fun b => b.miner == "ATTACKER")).length

/-- The _find_fork_point method: first index at which the two chains'
block hashes differ, scanning pairwise; if no index below the shorter
length differs, the result is the shorter length. -/
def findForkPoint : List Block → List Block → Nat
  | p :: ps, a :: as =>
      if p.hash = a.hash then findForkPoint ps as + 1 else 0
  | _, _ => 0

/-- The _attacker_releases_chain method.  If the attacker chain is
strictly longer the public chain is replaced by it, the attacker is
credited with the blocks past the fork point and the reorg counter is
bumped; otherwise the private chain is abandoned: the honest main-chain
counter is overwritten with the public chain's honest-block count and the
attacker chain is reset to a copy of the public chain. -/
def attackerReleasesChain (s : SimState) : SimState :=
  if s.public_chain.length < s.attacker_chain.length then
    let fork_point := findForkPoint s.public_chain s.attacker_chain
    let attacker_blocks_won := s.attacker_chain.length - fork_point
    { s with
        reorgs := s.reorgs + 1
        attacker_blocks_in_main_chain :=
          s.attacker_blocks_in_main_chain + attacker_blocks_won
        public_chain := s.attacker_chain }
  else
    let honest_blocks_won :=
      s.public_chain.length - countAttackerBlocks s.public_chain
    { s with
        honest_blocks_in_main_chain := honest_blocks_won
        attacker_chain := s.public_chain }

/-- The _attacker_mines_block method: extend the private chain with a
withheld block and count it as mined by the attacker. -/
def attackerMinesBlock (i : RoundInput) (s : SimState) : SimState :=
  let tip := tipD s.attacker_chain
  let nb := mineBlock "ATTACKER" (tip.height + 1) tip.hash 16
      i.nonce i.tHash i.tStamp
  { s with
      attacker_chain := s.attacker_chain ++ [nb]
      attacker_blocks_mined := s.attacker_blocks_mined + 1 }

/-- The _honest_miner_mines_block method: a uniformly chosen honest miner
extends the public chain, and if the public chain has caught up with the
private chain (len(public) >= len(attacker)) the release routine runs. -/
def honestMinerMinesBlock (i : RoundInput) (s : SimState) : SimState :=
  let minerId := honestMinerIds.getD (i.choice % 3) "HONEST_0"
  let tip := tipD s.public_chain
  let nb := mineBlock minerId (tip.height + 1) tip.hash 16
      i.nonce i.tHash i.tStamp
  let s1 := { s with
      public_chain := s.public_chain ++ [nb]
      honest_blocks_mined := s.honest_blocks_mined + 1 }
  if s1.attacker_chain.length ≤ s1.public_chain.length then
    attackerReleasesChain s1
  else
    s1

/-- One iteration of the run_simulation loop: draw random.random() and
route the block to the attacker's private chain or an honest miner's
public broadcast. -/
def simRound (cfg : SimulationConfig) (i : RoundInput) (s : SimState) :
    SimState :=
  if i.r < cfg.attacker_hashrate then
    attackerMinesBlock i s
  else
    honestMinerMinesBlock i s

/-- Folding the round body over a list of per-round inputs. -/
def runRounds (cfg : SimulationConfig) : List RoundInput → SimState → SimState
  | [], s => s
  | i :: is, s => runRounds cfg is (simRound cfg i s)

/-- The run_simulation method: initialize genesis then loop over
range(1, total_blocks + 1), consuming one RoundInput per iteration. -/
def runSimulation (cfg : SimulationConfig) (inputs : List RoundInput) :
    SimState :=
  runRounds cfg (inputs.take cfg.total_blocks.toNat) initState

/-- Numbers computed by _print_results. -/
structure FinalReport where
  attacker_mined : Nat
  honest_mined : Nat
  expected_attacker_reward : ℚ
  actual_attacker_reward : Nat
  honest_reward_blocks : Nat
  reorg_count : Nat
  profit : ℚ
  profitable : Bool
  public_chain_length : Nat
deriving DecidableEq

/-- The computations of _print_results, as a pure function of the final
state and the configuration: the fair-share baseline, the attacker's
blocks in the final public chain, the profit and the verdict. -/
def printResults (cfg : SimulationConfig) (s : SimState) : FinalReport :=
  let expected : ℚ := cfg.attacker_hashrate * (cfg.total_blocks : ℚ)
  let actual : Nat := countAttackerBlocks s.public_chain
  let profit : ℚ := (actual : ℚ) - expected
  { attacker_mined := s.attacker_blocks_mined
    honest_mined := s.honest_blocks_mined
    expected_attacker_reward := expected
    actual_attacker_reward := actual
    honest_reward_blocks := s.public_chain.length - actual
    reorg_count := s.reorgs
    profit := profit
    profitable := decide (0 < profit)
    public_chain_length := s.public_chain.length }

end AttackSim

namespace AttackSim

/-! Proof-layer abbreviations: the intermediate values appearing inside
attackerMinesBlock and honestMinerMinesBlock, each tied to the embedded
definition by a definitional equation. -/

/-- Block appended by the attacker in _attacker_mines_block. -/
def attackerNewBlock (i : RoundInput) (s : SimState) : Block :=
  mineBlock "ATTACKER" ((tipD s.attacker_chain).height + 1)
    (tipD s.attacker_chain).hash 16 i.nonce i.tHash i.tStamp

/-- Block appended by the chosen honest miner in _honest_miner_mines_block. -/
def honestNewBlock (i : RoundInput) (s : SimState) : Block :=
  mineBlock (honestMinerIds.getD (i.choice % 3) "HONEST_0")
    ((tipD s.public_chain).height + 1) (tipD s.public_chain).hash 16
    i.nonce i.tHash i.tStamp

/-- State right after the honest block is broadcast, before the release
check. -/
def honestAppended (i : RoundInput) (s : SimState) : SimState :=
  { s with
      public_chain := s.public_chain ++ [honestNewBlock i s]
      honest_blocks_mined := s.honest_blocks_mined + 1 }

theorem attackerStep_eq (i : RoundInput) (s : SimState) :
    attackerMinesBlock i s =
      { s with
          attacker_chain := s.attacker_chain ++ [attackerNewBlock i s]
          attacker_blocks_mined := s.attacker_blocks_mined + 1 } := rfl

theorem honestStep_eq (i : RoundInput) (s : SimState) :
    honestMinerMinesBlock i s =
      if (honestAppended i s).attacker_chain.length ≤
          (honestAppended i s).public_chain.length then
        attackerReleasesChain (honestAppended i s)
      else
        honestAppended i s := rfl

theorem release_abandon (s : SimState)
    (h : s.attacker_chain.length ≤ s.public_chain.length) :
    attackerReleasesChain s =
      { s with
          honest_blocks_in_main_chain :=
            s.public_chain.length - countAttackerBlocks s.public_chain
          attacker_chain := s.public_chain } := by
  unfold attackerReleasesChain
  rw [if_neg (Nat.not_lt.mpr h)]

theorem release_preserves_mined (s : SimState) :
    (attackerReleasesChain s).attacker_blocks_mined = s.attacker_blocks_mined ∧
    (attackerReleasesChain s).honest_blocks_mined = s.honest_blocks_mined := by
  unfold attackerReleasesChain
  split <;> exact ⟨rfl, rfl⟩

theorem simRound_no_reorg (cfg : SimulationConfig) (i : RoundInput) (s : SimState) :
    (simRound cfg i s).reorgs = s.reorgs ∧
    (simRound cfg i s).attacker_blocks_in_main_chain = s.attacker_blocks_in_main_chain := by
  unfold simRound
  split
  · rw [attackerStep_eq]; exact ⟨rfl, rfl⟩
  · rw [honestStep_eq]
    split
    next h => rw [release_abandon _ h]; exact ⟨rfl, rfl⟩
    next => exact ⟨rfl, rfl⟩

theorem simRound_mined_sum (cfg : SimulationConfig) (i : RoundInput) (s : SimState) :
    (simRound cfg i s).attacker_blocks_mined + (simRound cfg i s).honest_blocks_mined
      = s.attacker_blocks_mined + s.honest_blocks_mined + 1 := by
  unfold simRound
  split
  · rw [attackerStep_eq]
    show s.attacker_blocks_mined + 1 + s.honest_blocks_mined = _
    omega
  · rw [honestStep_eq]
    split
    next h =>
      rw [(release_preserves_mined _).1, (release_preserves_mined _).2]
      show s.attacker_blocks_mined + (s.honest_blocks_mined + 1) = _
      omega
    next => rfl

theorem runRounds_no_reorg (cfg : SimulationConfig) :
    ∀ (inputs : List RoundInput) (s : SimState),
      (runRounds cfg inputs s).reorgs = s.reorgs ∧
      (runRounds cfg inputs s).attacker_blocks_in_main_chain
        = s.attacker_blocks_in_main_chain
  | [], _ => ⟨rfl, rfl⟩
  | i :: is, s => by
      have h1 := simRound_no_reorg cfg i s
      have h2 := runRounds_no_reorg cfg is (simRound cfg i s)
      exact ⟨h2.1.trans h1.1, h2.2.trans h1.2⟩

theorem runRounds_mined_sum (cfg : SimulationConfig) :
    ∀ (inputs : List RoundInput) (s : SimState),
      (runRounds cfg inputs s).attacker_blocks_mined
        + (runRounds cfg inputs s).honest_blocks_mined
        = s.attacker_blocks_mined + s.honest_blocks_mined + inputs.length
  | [], _ => rfl
  | i :: is, s => by
      have h1 := simRound_mined_sum cfg i s
      have h2 := runRounds_mined_sum cfg is (simRound cfg i s)
      simp only [runRounds, List.length_cons]
      omega

end AttackSim

namespace AttackSim

theorem honestAppended_public_len (i : RoundInput) (s : SimState) :
    (honestAppended i s).public_chain.length = s.public_chain.length + 1 := by
  unfold honestAppended
  simp

theorem simRound_honest_sync (cfg : SimulationConfig) (i : RoundInput) (s : SimState)
    (hr : ¬ i.r < cfg.attacker_hashrate)
    (hsync : s.attacker_chain = s.public_chain) :
    (simRound cfg i s).public_chain.length = s.public_chain.length + 1 ∧
    (simRound cfg i s).attacker_chain = (simRound cfg i s).public_chain ∧
    (simRound cfg i s).reorgs = s.reorgs := by
  unfold simRound
  rw [if_neg hr, honestStep_eq]
  have hcond : (honestAppended i s).attacker_chain.length ≤
      (honestAppended i s).public_chain.length := by
    show s.attacker_chain.length ≤ (honestAppended i s).public_chain.length
    rw [honestAppended_public_len, hsync]
    omega
  rw [if_pos hcond, release_abandon _ hcond]
  refine ⟨honestAppended_public_len i s, rfl, rfl⟩

theorem runRounds_zero_hashrate (cfg : SimulationConfig)
    (h0 : cfg.attacker_hashrate = 0) :
    ∀ (inputs : List RoundInput) (s : SimState), (∀ i ∈ inputs, 0 ≤ i.r) →
      s.attacker_chain = s.public_chain →
      (runRounds cfg inputs s).public_chain.length
          = s.public_chain.length + inputs.length ∧
      (runRounds cfg inputs s).reorgs = s.reorgs
  | [], _, _, _ => ⟨rfl, rfl⟩
  | i :: is, s, hre, hsync => by
      have hri : ¬ i.r < cfg.attacker_hashrate := by
        rw [h0]
        exact not_lt.mpr (hre i (List.mem_cons_self i is))
      have hstep := simRound_honest_sync cfg i s hri hsync
      have hrest := runRounds_zero_hashrate cfg h0 is (simRound cfg i s)
        (fun j hj => hre j (List.mem_cons_of_mem i hj)) hstep.2.1
      simp only [runRounds, List.length_cons]
      constructor
      · rw [hrest.1, hstep.1]; omega
      · rw [hrest.2, hstep.2.2]

theorem attackerStep_fields (i : RoundInput) (s : SimState) :
    (attackerMinesBlock i s).public_chain = s.public_chain ∧
    (attackerMinesBlock i s).reorgs = s.reorgs ∧
    (attackerMinesBlock i s).attacker_blocks_in_main_chain
      = s.attacker_blocks_in_main_chain ∧
    (attackerMinesBlock i s).attacker_chain.length = s.attacker_chain.length + 1 := by
  rw [attackerStep_eq]
  refine ⟨rfl, rfl, rfl, ?_⟩
  show (s.attacker_chain ++ [attackerNewBlock i s]).length = _
  simp

theorem runRounds_full_hashrate (cfg : SimulationConfig)
    (h1 : cfg.attacker_hashrate = 1) :
    ∀ (inputs : List RoundInput) (s : SimState), (∀ i ∈ inputs, i.r < 1) →
      (runRounds cfg inputs s).public_chain = s.public_chain ∧
      (runRounds cfg inputs s).reorgs = s.reorgs ∧
      (runRounds cfg inputs s).attacker_blocks_in_main_chain
        = s.attacker_blocks_in_main_chain ∧
      (runRounds cfg inputs s).attacker_chain.length
        = s.attacker_chain.length + inputs.length
  | [], _, _ => ⟨rfl, rfl, rfl, rfl⟩
  | i :: is, s, hre => by
      have hri : i.r < cfg.attacker_hashrate := by
        rw [h1]; exact hre i (List.mem_cons_self i is)
      have hstep := attackerStep_fields i s
      have hrest := runRounds_full_hashrate cfg h1 is (simRound cfg i s)
        (fun j hj => hre j (List.mem_cons_of_mem i hj))
      have hsim : simRound cfg i s = attackerMinesBlock i s := by
        unfold simRound; rw [if_pos hri]
      rw [hsim] at hrest
      simp only [runRounds, List.length_cons, hsim]
      refine ⟨hrest.1.trans hstep.1, hrest.2.1.trans hstep.2.1,
        hrest.2.2.1.trans hstep.2.2.1, ?_⟩
      rw [hrest.2.2.2, hstep.2.2.2]
      omega

end AttackSim

namespace AttackSim

theorem ffp_le : ∀ pub att : List Block,
    findForkPoint pub att ≤ min pub.length att.length
  | [], att => by simp [findForkPoint]
  | _ :: _, [] => by simp [findForkPoint]
  | p :: ps, a :: as => by
      unfold findForkPoint
      split
      · have := ffp_le ps as
        simpa [Nat.succ_min_succ] using this
      · exact Nat.zero_le _

theorem ffp_agree : ∀ pub att : List Block,
    (pub.take (findForkPoint pub att)).map Block.hash
      = (att.take (findForkPoint pub att)).map Block.hash
  | [], att => by simp [findForkPoint]
  | _ :: _, [] => by simp [findForkPoint]
  | p :: ps, a :: as => by
      unfold findForkPoint
      split
      next h =>
        simp only [List.take_succ_cons, List.map_cons, h]
        rw [ffp_agree ps as]
      next => simp

theorem ffp_diverge : ∀ pub att : List Block,
    findForkPoint pub att < min pub.length att.length →
    (pub.getD (findForkPoint pub att) genesisBlock).hash
      ≠ (att.getD (findForkPoint pub att) genesisBlock).hash
  | [], att => by simp [findForkPoint]
  | _ :: _, [] => by simp [findForkPoint]
  | p :: ps, a :: as => by
      unfold findForkPoint
      split
      next heq =>
        intro hlt
        have hlt' : findForkPoint ps as < min ps.length as.length := by
          simp only [List.length_cons, Nat.succ_min_succ] at hlt
          omega
        simpa [List.getD_cons_succ] using ffp_diverge ps as hlt'
      next hne =>
        intro _
        simpa [List.getD_cons_zero] using hne

theorem ffp_full : ∀ pub att : List Block,
    (pub.take (min pub.length att.length)).map Block.hash
      = (att.take (min pub.length att.length)).map Block.hash →
    findForkPoint pub att = min pub.length att.length
  | [], att => by simp [findForkPoint]
  | _ :: _, [] => by simp [findForkPoint]
  | p :: ps, a :: as => by
      intro h
      simp only [List.length_cons, Nat.succ_min_succ, List.take_succ_cons,
        List.map_cons, List.cons.injEq] at h
      unfold findForkPoint
      rw [if_pos h.1]
      simp only [List.length_cons, Nat.succ_min_succ]
      rw [ffp_full ps as h.2]

end AttackSim

namespace AttackSim

/-- Part of a round's inputs that is derived from the seeded random
stream (actor draw, honest-miner choice, nonce), as opposed to the wall
clock readings. -/
def randPart (i : RoundInput) : ℚ × Nat × Nat :=
  (i.r, i.choice, i.nonce)

/-- Clock-independent part of a block: its height and its miner. -/
def blockSkel (b : Block) : Nat × String :=
  (b.height, b.miner)

/-- Clock-independent part of the simulation state: both chains up to
heights and miner attribution, and all five counters. -/
def stateSkel (s : SimState) :
    List (Nat × String) × List (Nat × String) × Nat × Nat × Nat × Nat × Nat :=
  (s.public_chain.map blockSkel, s.attacker_chain.map blockSkel,
   s.attacker_blocks_mined, s.honest_blocks_mined,
   s.attacker_blocks_in_main_chain, s.honest_blocks_in_main_chain, s.reorgs)

theorem map_getLastD {α β : Type} (f : α → β) :
    ∀ (l1 l2 : List α) (d1 d2 : α), l1.map f = l2.map f → f d1 = f d2 →
      f (l1.getLastD d1) = f (l2.getLastD d2)
  | [], [], _, _, _, hd => hd
  | [], _ :: _, _, _, h, _ => by simp at h
  | _ :: _, [], _, _, h, _ => by simp at h
  | a :: as, b :: bs, d1, d2, h, _ => by
      rw [List.map_cons, List.map_cons] at h
      injection h with h1 h2
      rw [List.getLastD_cons, List.getLastD_cons]
      exact map_getLastD f as bs a b h2 h1

theorem countP_congr_map {α β : Type} (f : α → β) (q : β → Bool)
    (l1 l2 : List α) (h : l1.map f = l2.map f) :
    l1.countP (fun x => q (f x)) = l2.countP (fun x => q (f x)) := by
  have h2 := congrArg (List.countP q) h
  simpa [List.countP_map, Function.comp] using h2

theorem length_congr_skel (l1 l2 : List Block)
    (h : l1.map blockSkel = l2.map blockSkel) : l1.length = l2.length := by
  have h2 := congrArg List.length h
  simpa using h2

theorem countAttacker_congr (l1 l2 : List Block)
    (h : l1.map blockSkel = l2.map blockSkel) :
    countAttackerBlocks l1 = countAttackerBlocks l2 := by
  unfold countAttackerBlocks
  rw [← List.countP_eq_length_filter, ← List.countP_eq_length_filter]
  exact countP_congr_map blockSkel (fun x => x.2 == "ATTACKER") l1 l2 h

theorem tip_skel_congr (l1 l2 : List Block)
    (h : l1.map blockSkel = l2.map blockSkel) :
    blockSkel (tipD l1) = blockSkel (tipD l2) :=
  map_getLastD blockSkel l1 l2 genesisBlock genesisBlock h rfl

end AttackSim

namespace AttackSim

theorem simRound_skel_congr (cfg : SimulationConfig) (i1 i2 : RoundInput)
    (s1 s2 : SimState) (hi : randPart i1 = randPart i2)
    (hs : stateSkel s1 = stateSkel s2) :
    stateSkel (simRound cfg i1 s1) = stateSkel (simRound cfg i2 s2) := by
  simp only [randPart, Prod.mk.injEq] at hi
  obtain ⟨hr, hc, hn⟩ := hi
  simp only [stateSkel, Prod.mk.injEq] at hs
  obtain ⟨hpub, hatt, ham, hhm, haim, hhim, hrg⟩ := hs
  unfold simRound
  rw [hr]
  by_cases hb : i2.r < cfg.attacker_hashrate
  · rw [if_pos hb, if_pos hb, attackerStep_eq, attackerStep_eq]
    have hnb : blockSkel (attackerNewBlock i1 s1) = blockSkel (attackerNewBlock i2 s2) := by
      unfold attackerNewBlock blockSkel mineBlock
      have ht : (tipD s1.attacker_chain).height = (tipD s2.attacker_chain).height :=
        congrArg Prod.fst (tip_skel_congr _ _ hatt)
      rw [ht]
    simp only [stateSkel, Prod.mk.injEq, List.map_append, List.map_cons, List.map_nil]
    exact ⟨hpub, by rw [hatt, hnb], by rw [ham], hhm, haim, hhim, hrg⟩
  · rw [if_neg hb, if_neg hb, honestStep_eq, honestStep_eq]
    have hnb : blockSkel (honestNewBlock i1 s1) = blockSkel (honestNewBlock i2 s2) := by
      unfold honestNewBlock blockSkel mineBlock
      have ht : (tipD s1.public_chain).height = (tipD s2.public_chain).height :=
        congrArg Prod.fst (tip_skel_congr _ _ hpub)
      rw [ht, hc]
    have hpub' : (honestAppended i1 s1).public_chain.map blockSkel
        = (honestAppended i2 s2).public_chain.map blockSkel := by
      show (s1.public_chain ++ [honestNewBlock i1 s1]).map blockSkel
        = (s2.public_chain ++ [honestNewBlock i2 s2]).map blockSkel
      simp only [List.map_append, List.map_cons, List.map_nil]
      rw [hpub, hnb]
    have hatt' : (honestAppended i1 s1).attacker_chain.map blockSkel
        = (honestAppended i2 s2).attacker_chain.map blockSkel := hatt
    have hcond : ((honestAppended i1 s1).attacker_chain.length ≤
          (honestAppended i1 s1).public_chain.length) ↔
        ((honestAppended i2 s2).attacker_chain.length ≤
          (honestAppended i2 s2).public_chain.length) := by
      rw [length_congr_skel _ _ hatt', length_congr_skel _ _ hpub']
    by_cases hc1 : (honestAppended i1 s1).attacker_chain.length ≤
        (honestAppended i1 s1).public_chain.length
    · have hc2 := hcond.mp hc1
      rw [if_pos hc1, if_pos hc2, release_abandon _ hc1, release_abandon _ hc2]
      simp only [stateSkel, Prod.mk.injEq]
      refine ⟨hpub', hpub', ham, by show s1.honest_blocks_mined + 1 = s2.honest_blocks_mined + 1; rw [hhm],
        haim, ?_, hrg⟩
      rw [length_congr_skel _ _ hpub', countAttacker_congr _ _ hpub']
    · have hc2 := fun h => hc1 (hcond.mpr h)
      rw [if_neg hc1, if_neg hc2]
      simp only [stateSkel, Prod.mk.injEq]
      exact ⟨hpub', hatt', ham, by show s1.honest_blocks_mined + 1 = s2.honest_blocks_mined + 1; rw [hhm],
        haim, hhim, hrg⟩

end AttackSim

namespace AttackSim

theorem runRounds_skel_congr (cfg : SimulationConfig) :
    ∀ (in1 in2 : List RoundInput) (s1 s2 : SimState),
      in1.map randPart = in2.map randPart → stateSkel s1 = stateSkel s2 →
      stateSkel (runRounds cfg in1 s1) = stateSkel (runRounds cfg in2 s2)
  | [], [], _, _, _, hs => hs
  | [], _ :: _, _, _, h, _ => by simp at h
  | _ :: _, [], _, _, h, _ => by simp at h
  | i1 :: is1, i2 :: is2, s1, s2, h, hs => by
      rw [List.map_cons, List.map_cons] at h
      injection h with h1 h2
      exact runRounds_skel_congr cfg is1 is2 _ _ h2
        (simRound_skel_congr cfg i1 i2 s1 s2 h1 hs)

theorem printResults_congr (cfg : SimulationConfig) (s1 s2 : SimState)
    (hs : stateSkel s1 = stateSkel s2) :
    printResults cfg s1 = printResults cfg s2 := by
  simp only [stateSkel, Prod.mk.injEq] at hs
  obtain ⟨hpub, _, ham, hhm, _, _, hrg⟩ := hs
  unfold printResults
  rw [countAttacker_congr _ _ hpub, length_congr_skel _ _ hpub, ham, hhm, hrg]

end AttackSim

namespace AttackSim

/-! Concrete configurations and input streams used by the closed theorems. -/

/-- Helper to build a round's inputs. -/
def mkIn (r : ℚ) (c n tH tS : Nat) : RoundInput :=
  { r := r, choice := c, nonce := n, tHash := tH, tStamp := tS }

/-- Configuration with 50 percent attacker hashrate and five rounds. -/
def cfgC1 : SimulationConfig := mkConfig (mkRat 1 2) 5 "selfish" false

/-- Input stream forcing the actor sequence attacker, attacker, honest,
honest, honest under cfgC1 (draws 0 select the attacker, draws 3/4 select
an honest miner). -/
def inputsC1 : List RoundInput :=
  [mkIn 0 0 1 101 101, mkIn 0 0 2 102 102, mkIn (mkRat 3 4) 0 3 103 103,
   mkIn (mkRat 3 4) 1 4 104 104, mkIn (mkRat 3 4) 2 5 105 105]

/-- Out-of-range configuration: attacker hashrate 2 with three rounds. -/
def c3cfg : SimulationConfig := mkConfig (mkRat 2 1) 3 "selfish" false

/-- Three rounds of inputs with draw 0 each. -/
def c3inputs : List RoundInput :=
  [mkIn 0 0 1 11 11, mkIn 0 0 2 12 12, mkIn 0 0 3 13 13]

/-- Configuration with 30 percent attacker hashrate and one round. -/
def c4cfg : SimulationConfig := mkConfig (mkRat 3 10) 1 "selfish" false

/-- One honest round observed at clock reading 100. -/
def c4in1 : List RoundInput := [mkIn (mkRat 3 4) 0 7 100 100]

/-- The same random draws as c4in1 but later clock readings. -/
def c4in2 : List RoundInput := [mkIn (mkRat 3 4) 0 7 200 201]

/-- Zero attacker hashrate over two rounds. -/
def c8cfg : SimulationConfig := mkConfig 0 2 "selfish" false

/-- Two rounds of inputs with draws in the unit interval. -/
def c8inputs : List RoundInput :=
  [mkIn (mkRat 1 2) 0 1 11 11, mkIn (mkRat 1 3) 1 2 12 12]

/-- Full attacker hashrate over two rounds. -/
def c9cfg : SimulationConfig := mkConfig 1 2 "selfish" false

/-- Two rounds of inputs with draws in the unit interval. -/
def c9inputs : List RoundInput :=
  [mkIn 0 0 1 11 11, mkIn (mkRat 1 2) 0 2 12 12]

/-- Honest block at height 1 extending genesis. -/
def exBlockA : Block := mineBlock "HONEST_0" 1 HashVal.genesisHash 16 1 11 11

/-- Honest block at height 2 extending exBlockA. -/
def exBlockB : Block := mineBlock "HONEST_1" 2 exBlockA.hash 16 2 12 12

/-- One of two diverging height-3 blocks on top of exBlockB. -/
def exBlockC1 : Block := mineBlock "HONEST_2" 3 exBlockB.hash 16 3 13 13

/-- The other diverging height-3 block on top of exBlockB. -/
def exBlockC2 : Block := mineBlock "ATTACKER" 3 exBlockB.hash 16 4 14 14

/-- Example public chain sharing three blocks with exAtt then diverging. -/
def exPub : List Block := [genesisBlock, exBlockA, exBlockB, exBlockC1]

/-- Example attacker chain sharing three blocks with exPub then diverging. -/
def exAtt : List Block := [genesisBlock, exBlockA, exBlockB, exBlockC2]

/-- C1 (claimed reorg scenario, evaluated on the code): with total_rounds
five and the forced actor sequence attacker, attacker, honest, honest,
honest, after the first honest round the public chain has length 2 and the
private chain length 3, yet no release fires (the release routine is only
invoked when the public chain has caught up), so the whole run ends with
reorg count 0, no attacker block credited to the main chain, and a public
chain of length 4 — not the claimed reorg with count 1 and length 5. -/
theorem forced_sequence_run_facts :
    (runRounds cfgC1 (inputsC1.take 3) initState).public_chain.length = 2 ∧
    (runRounds cfgC1 (inputsC1.take 3) initState).attacker_chain.length = 3 ∧
    (runRounds cfgC1 (inputsC1.take 3) initState).reorgs = 0 ∧
    (runSimulation cfgC1 inputsC1).reorgs = 0 ∧
    (runSimulation cfgC1 inputsC1).attacker_blocks_in_main_chain = 0 ∧
    (runSimulation cfgC1 inputsC1).public_chain.length = 4 ∧
    (runSimulation cfgC1 inputsC1).attacker_blocks_mined = 2 ∧
    (runSimulation cfgC1 inputsC1).honest_blocks_mined = 3 := by
  decide

/-- C2: in every reachable state of every run, over every configuration
and every input stream, the reorg counter and the attacker-blocks-in-main-
chain counter are zero: the release routine is invoked only under
len(public) >= len(private), which falsifies its win guard
len(private) > len(public), so the win branch never executes. -/
theorem win_branch_unreachable (cfg : SimulationConfig)
    (inputs : List RoundInput) :
    (runRounds cfg inputs initState).reorgs = 0 ∧
    (runRounds cfg inputs initState).attacker_blocks_in_main_chain = 0 :=
  runRounds_no_reorg cfg inputs initState

/-- C3 counterexample: with attacker hashrate 2 (outside the unit
interval) setup does not fail — the simulation loop runs all three rounds
and mutates the state, so no InvalidConfiguration is raised before the
loop. -/
theorem invalid_config_runs_anyway :
    1 < c3cfg.attacker_hashrate ∧
    (runSimulation c3cfg c3inputs).attacker_blocks_mined
      + (runSimulation c3cfg c3inputs).honest_blocks_mined = 3 ∧
    (runSimulation c3cfg c3inputs).attacker_chain.length = 4 := by
  refine ⟨by decide, by decide, by decide⟩

/-- C3 amended: the code performs no configuration validation at all — for
every attacker hashrate, round count and flag values, setup succeeds and
the loop executes one round per available input up to the configured round
count (zero rounds when the count is non-positive). -/
theorem config_never_rejected (q : ℚ) (b : Int) (a : String) (v : Bool)
    (inputs : List RoundInput) :
    (runSimulation (mkConfig q b a v) inputs).attacker_blocks_mined
      + (runSimulation (mkConfig q b a v) inputs).honest_blocks_mined
      = (inputs.take b.toNat).length := by
  unfold runSimulation
  have h := runRounds_mined_sum (mkConfig q b a v)
    (inputs.take (mkConfig q b a v).total_blocks.toNat) initState
  simpa [initState, mkConfig] using h

/-- C4 counterexample: two runs with identical configuration and identical
random-stream draws (actor selection, miner choice, nonce) but different
wall-clock readings produce different final states — the chains differ in
timestamps and block hashes, so the run is not reproducible from the seed
alone. -/
theorem same_seed_different_clock_diverges :
    c4in1.map randPart = c4in2.map randPart ∧
    runSimulation c4cfg c4in1 ≠ runSimulation c4cfg c4in2 :=
  ⟨by decide, by decide⟩

/-- C4 amended: two runs with identical configuration and identical
random-stream draws agree on everything except the clock-derived data:
the chains coincide block-for-block in height and miner attribution, all
five counters and the reorg count coincide, and the final report values
are identical. -/
theorem same_rand_stream_same_skeleton_and_report (cfg : SimulationConfig)
    (in1 in2 : List RoundInput) (h : in1.map randPart = in2.map randPart) :
    stateSkel (runSimulation cfg in1) = stateSkel (runSimulation cfg in2) ∧
    printResults cfg (runSimulation cfg in1)
      = printResults cfg (runSimulation cfg in2) := by
  have htake : (in1.take cfg.total_blocks.toNat).map randPart
      = (in2.take cfg.total_blocks.toNat).map randPart := by
    rw [List.map_take, List.map_take, h]
  have hs := runRounds_skel_congr cfg _ _ initState initState htake rfl
  exact ⟨hs, printResults_congr cfg _ _ hs⟩

/-- Witness for the amended C4 theorem at a concrete pair of input
streams sharing draws but not clock readings. -/
theorem same_rand_stream_same_skeleton_and_report_witness :
    c4in1.map randPart = c4in2.map randPart ∧
    stateSkel (runSimulation c4cfg c4in1)
      = stateSkel (runSimulation c4cfg c4in2) :=
  ⟨by decide,
   (same_rand_stream_same_skeleton_and_report c4cfg c4in1 c4in2 (by decide)).1⟩

/-- C5: whenever the release evaluation runs with the private chain not
strictly longer than the public chain, the result is exactly the abandon
outcome: honest_blocks_in_main_chain is overwritten with the public
chain's length minus its attacker-mined block count, the attacker chain
becomes a copy of the public chain, and every other field — including the
reorg counter — is unchanged. -/
theorem abandon_branch_spec (s : SimState)
    (h : s.attacker_chain.length ≤ s.public_chain.length) :
    attackerReleasesChain s =
      { s with
          honest_blocks_in_main_chain :=
            s.public_chain.length - countAttackerBlocks s.public_chain
          attacker_chain := s.public_chain } :=
  release_abandon s h

/-- Witness for the C5 theorem at the genesis state, where both chains
have length one. -/
theorem abandon_branch_spec_witness :
    initState.attacker_chain.length ≤ initState.public_chain.length ∧
    attackerReleasesChain initState =
      { initState with
          honest_blocks_in_main_chain :=
            initState.public_chain.length
              - countAttackerBlocks initState.public_chain
          attacker_chain := initState.public_chain } :=
  ⟨by decide, abandon_branch_spec initState (by decide)⟩

/-- C6: the fork-point computation is sound and complete — it never
exceeds the shorter length, the two chains' hashes agree on every index
below it, when it is below the shorter length the hashes differ there,
and when the chains agree hash-wise on the whole shorter range it equals
the shorter length; on the concrete chains sharing genesis and two blocks
before diverging it returns 3. -/
theorem forkpoint_characterization :
    (∀ pub att : List Block,
      findForkPoint pub att ≤ min pub.length att.length ∧
      (pub.take (findForkPoint pub att)).map Block.hash
        = (att.take (findForkPoint pub att)).map Block.hash ∧
      (findForkPoint pub att < min pub.length att.length →
        (pub.getD (findForkPoint pub att) genesisBlock).hash
          ≠ (att.getD (findForkPoint pub att) genesisBlock).hash) ∧
      ((pub.take (min pub.length att.length)).map Block.hash
          = (att.take (min pub.length att.length)).map Block.hash →
        findForkPoint pub att = min pub.length att.length)) ∧
    findForkPoint exPub exAtt = 3 :=
  ⟨fun pub att =>
    ⟨ffp_le pub att, ffp_agree pub att, ffp_diverge pub att, ffp_full pub att⟩,
   by decide⟩

/-- Witness for the C6 theorem: on the concrete diverging chains the fork
point is 3 and the blocks there have different hashes. -/
theorem forkpoint_characterization_witness :
    (exPub.getD 3 genesisBlock).hash ≠ (exAtt.getD 3 genesisBlock).hash ∧
    findForkPoint exPub exAtt = 3 := by
  have h := forkpoint_characterization
  have h3 : findForkPoint exPub exAtt = 3 := h.2
  refine ⟨?_, h3⟩
  have hd := (h.1 exPub exAtt).2.2.1
  rw [h3] at hd
  exact hd (by decide)

/-- C7: at every point of every run, the two mined-block counters sum to
the number of rounds completed so far — each round increments exactly one
of them, unconditionally. -/
theorem mined_counter_conservation (cfg : SimulationConfig)
    (inputs : List RoundInput) :
    (runRounds cfg inputs initState).attacker_blocks_mined
      + (runRounds cfg inputs initState).honest_blocks_mined
      = inputs.length := by
  have h := runRounds_mined_sum cfg inputs initState
  simpa [initState] using h

/-- C8: with zero attacker hashrate (and draws in the unit interval) the
attacker never mines, every round extends the public chain, and at the
end the reorg count is zero and the public chain holds total_rounds + 1
blocks counting genesis. -/
theorem zero_hashrate_no_reorg (cfg : SimulationConfig)
    (inputs : List RoundInput) (h0 : cfg.attacker_hashrate = 0)
    (hr : ∀ i ∈ inputs, 0 ≤ i.r)
    (hlen : cfg.total_blocks.toNat ≤ inputs.length) :
    (runSimulation cfg inputs).reorgs = 0 ∧
    (runSimulation cfg inputs).public_chain.length
      = cfg.total_blocks.toNat + 1 := by
  unfold runSimulation
  have hr' : ∀ i ∈ inputs.take cfg.total_blocks.toNat, 0 ≤ i.r :=
    fun i hi => hr i (List.take_subset _ _ hi)
  have h := runRounds_zero_hashrate cfg h0
    (inputs.take cfg.total_blocks.toNat) initState hr' rfl
  have hlen2 : (inputs.take cfg.total_blocks.toNat).length
      = cfg.total_blocks.toNat := by
    rw [List.length_take]; omega
  have h3 : initState.public_chain.length = 1 := rfl
  exact ⟨h.2, by omega⟩

/-- Witness for the C8 theorem at a concrete zero-hashrate run of two
rounds. -/
theorem zero_hashrate_no_reorg_witness :
    (c8cfg.attacker_hashrate = 0 ∧ (∀ i ∈ c8inputs, 0 ≤ i.r) ∧
      c8cfg.total_blocks.toNat ≤ c8inputs.length) ∧
    (runSimulation c8cfg c8inputs).reorgs = 0 ∧
    (runSimulation c8cfg c8inputs).public_chain.length
      = c8cfg.total_blocks.toNat + 1 :=
  ⟨⟨by decide, by decide, by decide⟩,
   zero_hashrate_no_reorg c8cfg c8inputs (by decide) (by decide) (by decide)⟩

/-- C9: with full attacker hashrate (and draws below one) the attacker
mines every round: the private chain grows by one block per round, the
public chain is never extended beyond genesis, no release ever fires, and
at the end the reorg count, the attacker-in-main-chain counter and the
attacker's actual reward are all zero. -/
theorem full_hashrate_run (cfg : SimulationConfig)
    (inputs : List RoundInput) (h1 : cfg.attacker_hashrate = 1)
    (hr : ∀ i ∈ inputs, i.r < 1)
    (hlen : cfg.total_blocks.toNat ≤ inputs.length) :
    (runSimulation cfg inputs).public_chain = [genesisBlock] ∧
    (runSimulation cfg inputs).reorgs = 0 ∧
    (runSimulation cfg inputs).attacker_blocks_in_main_chain = 0 ∧
    (runSimulation cfg inputs).attacker_chain.length
      = cfg.total_blocks.toNat + 1 ∧
    (printResults cfg (runSimulation cfg inputs)).actual_attacker_reward
      = 0 := by
  unfold runSimulation
  have hr' : ∀ i ∈ inputs.take cfg.total_blocks.toNat, i.r < 1 :=
    fun i hi => hr i (List.take_subset _ _ hi)
  have h := runRounds_full_hashrate cfg h1
    (inputs.take cfg.total_blocks.toNat) initState hr'
  have hlen2 : (inputs.take cfg.total_blocks.toNat).length
      = cfg.total_blocks.toNat := by
    rw [List.length_take]; omega
  have h3 : initState.attacker_chain.length = 1 := rfl
  refine ⟨h.1, h.2.1, h.2.2.1, by omega, ?_⟩
  show countAttackerBlocks
    (runRounds cfg (inputs.take cfg.total_blocks.toNat) initState).public_chain = 0
  rw [h.1]
  decide

/-- Witness for the C9 theorem at a concrete full-hashrate run of two
rounds. -/
theorem full_hashrate_run_witness :
    (c9cfg.attacker_hashrate = 1 ∧ (∀ i ∈ c9inputs, i.r < 1) ∧
      c9cfg.total_blocks.toNat ≤ c9inputs.length) ∧
    (runSimulation c9cfg c9inputs).public_chain = [genesisBlock] ∧
    (runSimulation c9cfg c9inputs).reorgs = 0 ∧
    (runSimulation c9cfg c9inputs).attacker_blocks_in_main_chain = 0 ∧
    (runSimulation c9cfg c9inputs).attacker_chain.length
      = c9cfg.total_blocks.toNat + 1 ∧
    (printResults c9cfg (runSimulation c9cfg c9inputs)).actual_attacker_reward
      = 0 :=
  ⟨⟨by decide, by decide, by decide⟩,
   full_hashrate_run c9cfg c9inputs (by decide) (by decide) (by decide)⟩

/-- C10: the final statistics are a pure function of the final state and
the configuration — the expected reward is hashrate times round count, the
actual reward is the attacker-mined block count of the final public
chain, the profit is their difference, and the run is reported profitable
exactly when the profit is positive. -/
theorem final_report_formulas (cfg : SimulationConfig) (s : SimState) :
    (printResults cfg s).expected_attacker_reward
      = cfg.attacker_hashrate * (cfg.total_blocks : ℚ) ∧
    (printResults cfg s).actual_attacker_reward
      = countAttackerBlocks s.public_chain ∧
    (printResults cfg s).profit
      = ((printResults cfg s).actual_attacker_reward : ℚ)
        - (printResults cfg s).expected_attacker_reward ∧
    ((printResults cfg s).profitable = true ↔ 0 < (printResults cfg s).profit) :=
  ⟨rfl, rfl, rfl, by simp [printResults]⟩

end AttackSim
